import Mathlib

/-!
# Verification of the semantic chunking engine (`backend/utils/smart_chunker.py`)

Shallow embedding of the chunking pipeline: `SmartChunker._preprocess_text`,
`_split_paragraphs`, `_is_meaningful_text`, `_create_semantic_chunks`,
`_get_overlap_text`, `_split_large_paragraph`, `_force_split_by_words`,
`_finalize_chunks`, `_classify_chunk_type` and `chunk_document`, together with
the `ChunkConfig` dataclass.

Modelling conventions:
* Python `str` is modelled as `List Char` (`Text`).  Scanning loops that
  consume a variable number of characters per step carry an explicit fuel
  argument (initialised to the input length, which every step strictly
  decreases below) so that all definitions are structurally recursive and
  evaluate inside the kernel.
* Python integer fields of `ChunkConfig` are modelled as `Nat`; the subtraction
  `target_chunk_size - overlap_size` that feeds Python's `range` is computed in
  `Int`, so that the `range`-step semantics (ValueError on step 0, empty range
  on a negative step) are preserved.  Python exceptions are modelled by
  `Option` (`none` = the call raises).
* Character classes (`\s`, `\d`, `[a-z]`, `[A-Z]`, `\w`, `str.isalpha`,
  `str.isprintable`) are modelled exactly on the code points relevant to the
  development: the full Unicode `White_Space`-based set used by Python's
  `str.split`/`str.isspace`/`\s` is reproduced verbatim; the letter / digit /
  printable classes are modelled on their ASCII behaviour (every concrete input
  below is ASCII, and the universally quantified theorems use these predicates
  uniformly on both sides, or only on whitespace characters, where the ASCII
  model agrees with Python).
* `unicodedata.normalize("NFKC", text)` (line 87 of the source) is the
  identity on ASCII texts, and maps Unicode `White_Space` characters to
  `White_Space` characters; it is omitted from `preprocessText`, which is
  faithful for every input appearing in a theorem below (ASCII or
  whitespace-only inputs).
* Python's float comparisons `alpha/len < 0.6` and `distinct/total < 0.3` are
  modelled as the exact rational comparisons `5*alpha < 3*len` and
  `10*distinct < 3*total`.  The double nearest 0.6 (resp. 0.3) lies strictly
  below 3/5 (resp. 3/10) at distance ≈2e-17, so the float and rational
  comparisons agree for every text shorter than ≈10^15 characters.
-/

set_option maxHeartbeats 1000000

/-- Python strings are modelled as lists of characters. -/
abbrev Text := List Char

/-- Python's whitespace class: the characters for which `str.isspace()` holds
(equivalently, which `\s` matches in a `str` regex): U+0009–U+000D, U+001C–U+001F,
space, U+0085, U+00A0, U+1680, U+2000–U+200A, U+2028, U+2029, U+202F, U+205F,
U+3000. -/
def isPySpace (c : Char) : Bool :=
  let n := c.toNat
  (0x09 ≤ n && n ≤ 0x0d) || n == 0x20 || (0x1c ≤ n && n ≤ 0x1f) ||
  n == 0x85 || n == 0xa0 || n == 0x1680 || (0x2000 ≤ n && n ≤ 0x200a) ||
  n == 0x2028 || n == 0x2029 || n == 0x202f || n == 0x205f || n == 0x3000

/-- ASCII model of Python's `[a-z]`. -/
def isLowerA (c : Char) : Bool := 'a' ≤ c && c ≤ 'z'

/-- ASCII model of Python's `[A-Z]`. -/
def isUpperA (c : Char) : Bool := 'A' ≤ c && c ≤ 'Z'

/-- ASCII model of Python's `str.isalpha` (exact on ASCII inputs). -/
def isPyAlpha (c : Char) : Bool := isLowerA c || isUpperA c

/-- ASCII model of Python's `\d`. -/
def isPyDigit (c : Char) : Bool := '0' ≤ c && c ≤ '9'

/-- ASCII model of Python's `\w` (word character, used for `\b` boundaries). -/
def isWordChar (c : Char) : Bool := isPyAlpha c || isPyDigit c || c == '_'

/-- ASCII model of Python's `str.isprintable` (exact on ASCII; every character
above U+007E appearing in the theorems below is a whitespace character, which
Python also reports as non-printable, `' '` excepted, and `' '` is below U+007E). -/
def isPyPrintable (c : Char) : Bool := 0x20 ≤ c.toNat && c.toNat ≤ 0x7e

/-- Accumulator loop of `str.split()`: `cur` is the reversed current word. -/
def pywordsAux : List Char → List Char → List (List Char)
  | [], cur => if cur.isEmpty then [] else [cur.reverse]
  | c :: t, cur =>
    if isPySpace c then
      if cur.isEmpty then pywordsAux t [] else cur.reverse :: pywordsAux t []
    else pywordsAux t (c :: cur)

/-- Python's `str.split()` with no argument: split on runs of whitespace,
dropping empty pieces. -/
def pywords (s : List Char) : List (List Char) := pywordsAux s []

/-- `len(text.split())`, the word count used throughout the chunker. -/
def countWords (t : Text) : Nat := (pywords t).length

/-- Python's `" ".join(words)`. -/
def unwords (ws : List Text) : Text := List.intercalate [' '] ws

/-- Python's `str.strip()`: remove leading and trailing whitespace. -/
def pystrip (s : Text) : Text :=
  ((s.dropWhile isPySpace).reverse.dropWhile isPySpace).reverse

/-- Python's `xs[-n:]` for `n > 0`: the last `n` elements (all of `xs` when
`n ≥ len(xs)`). -/
def listLastN {α : Type} (n : Nat) (xs : List α) : List α :=
  xs.drop (xs.length - n)

/-- `len(set(xs))`: the number of distinct elements (`seen` accumulates the
elements already counted). -/
def distinctAux {α : Type} [BEq α] : List α → List α → Nat
  | _, [] => 0
  | seen, w :: t =>
    if seen.contains w then distinctAux seen t
    else distinctAux (w :: seen) t + 1

/-- `len(set(xs))`. -/
def countDistinct {α : Type} [BEq α] (xs : List α) : Nat := distinctAux [] xs

/-- The `ChunkConfig` dataclass (`smart_chunker.py`, lines 14–23).  The sizes
are Python ints, modelled as `Nat` (no theorem below depends on negative
configuration values); the dataclass performs no validation. -/
structure ChunkConfig where
  target_chunk_size : Nat
  min_chunk_size : Nat
  max_chunk_size : Nat
  overlap_size : Nat
  preserve_paragraphs : Bool
  sentence_aware : Bool
deriving DecidableEq, Repr

/-- The dataclass-generated constructor `ChunkConfig(...)`: plain field
assignment, nothing else (lines 14–23 contain no `__post_init__`, assert or
check). -/
def mkChunkConfig (t m M o : Nat) (pp sa : Bool) : ChunkConfig :=
  ⟨t, m, M, o, pp, sa⟩

/-- The default configuration `ChunkConfig()` (field defaults of lines 18–23). -/
def defaultChunkConfig : ChunkConfig := mkChunkConfig 300 100 500 50 true true

/-- Modelled from the spec (§3 invariant and §7 ConfigurationError), for the
refinement claim C3 only — this is the configuration validity predicate in the
spec's words: `min_chunk_size ≤ target_chunk_size ≤ max_chunk_size`,
`overlap_size < target_chunk_size`, all sizes positive, stride
`target_chunk_size − overlap_size ≥ 1`.  The source contains no corresponding
check. -/
def specValidChunkConfig (cfg : ChunkConfig) : Prop :=
  0 < cfg.min_chunk_size ∧ 0 < cfg.target_chunk_size ∧ 0 < cfg.max_chunk_size ∧
  0 < cfg.overlap_size ∧
  cfg.min_chunk_size ≤ cfg.target_chunk_size ∧
  cfg.target_chunk_size ≤ cfg.max_chunk_size ∧
  cfg.overlap_size < cfg.target_chunk_size ∧
  1 ≤ cfg.target_chunk_size - cfg.overlap_size

instance (cfg : ChunkConfig) : Decidable (specValidChunkConfig cfg) := by
  unfold specValidChunkConfig; infer_instance

/-! ## Preprocessor (`_preprocess_text`, lines 84–101) -/

/-- One word-bounded literal substitution `re.sub(r"\b<pat>\b", repl, s)` where
the pattern `p0 :: pr` is a literal starting and ending with a word character
(as all four OCR word fixes do).  `prev` is the character just before the
current scan position in the original string (`none` at the start); `re.sub`
continues scanning after the end of each match.  `fuel` (initialised to the
input length, strictly decreasing, never exhausted) makes the recursion
structural; on exhaustion the remaining input is returned unchanged. -/
def subWBF (p0 : Char) (pr repl : List Char) : Nat → Option Char → List Char → List Char
  | 0, _, s => s
  | _ + 1, _, [] => []
  | fuel + 1, prev, c :: t =>
    if (p0 :: pr).isPrefixOf (c :: t)
        && !(prev.any isWordChar)
        && !(((c :: t).drop (pr.length + 1)).head?.any isWordChar) then
      repl ++ subWBF p0 pr repl fuel ((p0 :: pr).getLast?) ((c :: t).drop (pr.length + 1))
    else
      c :: subWBF p0 pr repl fuel (some c) t

/-- Word-bounded literal substitution (wrapper fixing the fuel). -/
def subWB (p0 : Char) (pr repl : List Char) (s : List Char) : List Char :=
  subWBF p0 pr repl s.length none s

/-- State machine for `re.sub(r"\s{2,}", " ", s)` (OCR fix 5, line 62): every
maximal run of two or more whitespace characters becomes a single space.  The
flag records being inside a run that has already been replaced.  Note `\s` also
matches newlines, so this erases blank-line paragraph breaks. -/
def collapseWsAux : Bool → List Char → List Char
  | _, [] => []
  | true, c :: t =>
    if isPySpace c then collapseWsAux true t else c :: collapseWsAux false t
  | false, c :: t =>
    if isPySpace c && t.head?.any isPySpace then ' ' :: collapseWsAux true t
    else c :: collapseWsAux false t

/-- `re.sub(r"\s{2,}", " ", s)`. -/
def collapseWsRuns (s : List Char) : List Char := collapseWsAux false s

/-- `re.sub(r"([a-z])([A-Z])", r"\1 \2", s)` (OCR fix 6, line 63): insert a
space between a lowercase letter and an immediately following uppercase letter;
scanning resumes after the matched pair. -/
def caseSpaceFix : List Char → List Char
  | [] => []
  | [c] => [c]
  | c1 :: c2 :: t =>
    if isLowerA c1 && isUpperA c2 then c1 :: ' ' :: c2 :: caseSpaceFix t
    else c1 :: caseSpaceFix (c2 :: t)

/-- Line 94: keep a character iff `char.isprintable() or char in "\n\t"`. -/
def printableFilter (t : List Char) : List Char :=
  t.filter (fun c => isPyPrintable c || c == '\n' || c == '\t')

/-- State machine for `re.sub(r"[ \t]+", " ", s)` (line 97): every maximal run
of spaces/tabs becomes one space; the flag records being inside such a run. -/
def spaceTabAux : Bool → List Char → List Char
  | _, [] => []
  | inRun, c :: t =>
    if c == ' ' || c == '\t' then
      if inRun then spaceTabAux true t else ' ' :: spaceTabAux true t
    else c :: spaceTabAux false t

/-- `re.sub(r"[ \t]+", " ", s)`. -/
def spaceTabCollapse (s : List Char) : List Char := spaceTabAux false s

/-- `re.sub(r"\n[ \t]*\n", "\n\n", s)` (line 98): a newline, optional
spaces/tabs, then a newline, becomes exactly two newlines; scanning resumes
after the match (non-overlapping, as in `re.sub`).  Fuel as in `subWBF`. -/
def paraBreakF : Nat → List Char → List Char
  | 0, s => s
  | _ + 1, [] => []
  | fuel + 1, c :: t =>
    if c == '\n' then
      let r := t.takeWhile (fun d => d == ' ' || d == '\t')
      if (t.drop r.length).head? == some '\n' then
        '\n' :: '\n' :: paraBreakF fuel ((t.drop r.length).drop 1)
      else c :: paraBreakF fuel t
    else c :: paraBreakF fuel t

/-- `re.sub(r"\n[ \t]*\n", "\n\n", s)`. -/
def paraBreakClean (s : List Char) : List Char := paraBreakF s.length s

/-- `re.sub(r"\n{3,}", "\n\n", s)` (line 99): a run of three or more newlines
becomes exactly two.  The flag records being inside a capped run (whose
remaining newlines are skipped). -/
def capNlAux : Bool → List Char → List Char
  | _, [] => []
  | true, c :: t =>
    if c == '\n' then capNlAux true t else c :: capNlAux false t
  | false, c :: t =>
    if c == '\n' && t.take 2 == ['\n', '\n'] then
      '\n' :: '\n' :: capNlAux true t
    else c :: capNlAux false t

/-- `re.sub(r"\n{3,}", "\n\n", s)`. -/
def capNewlines (s : List Char) : List Char := capNlAux false s

/-- `SmartChunker._preprocess_text` (lines 84–101): the four word-level OCR
fixes in order, then whitespace-run collapsing, then the missing-space fix,
then the printable filter, then the three whitespace regexes of lines 97–99,
then `strip()`.  (The NFKC normalization of line 87 is the identity on the
inputs considered here; see the module docstring.) -/
def preprocessText (t : Text) : Text :=
  pystrip (capNewlines (paraBreakClean (spaceTabCollapse (printableFilter
    (caseSpaceFix (collapseWsRuns
      (subWB 'o' "ver all".toList "overall".toList
        (subWB 'w' "ith in".toList "within".toList
          (subWB 't' "he m".toList "them".toList
            (subWB 'o' "ffi ce".toList "office".toList t))))))))))

/-! ## Regex split machinery

`re.split` semantics: scan left to right; at each position try the alternation
branches in order; the first position with a match wins; a zero-width match
also splits (Python ≥ 3.7), and scanning then advances by one character.
Each matcher receives the reversed already-scanned prefix (for lookbehinds)
and the remaining input, and returns the match length. -/

/-- Index of the last `'\n'` in a list, if any. -/
def lastNlIdx (r : List Char) : Option Nat :=
  (r.reverse.findIdx? (fun c => c == '\n')).map (fun k => r.length - 1 - k)

/-- Does `s` start with `\d+\.` (one or more digits then a dot)? -/
def numDotAt (s : List Char) : Bool :=
  let d := s.takeWhile isPyDigit
  !d.isEmpty && (s.drop d.length).head? == some '.'

/-- Generic splitter driver shared by the two compiled patterns.  `m brev s`
returns the length of the (possibly zero-width) match at the current position,
`brev` being the reversed scanned prefix.  Fuel as in `subWBF` (each step
consumes at least one character; on exhaustion the current piece is closed). -/
def splitGoF (m : List Char → List Char → Option Nat) :
    Nat → List Char → List Char → List Char → List (List Char)
  | 0, _, pieceRev, _ => [pieceRev.reverse]
  | _ + 1, _, pieceRev, [] => [pieceRev.reverse]
  | fuel + 1, brev, pieceRev, c :: t =>
    match m brev (c :: t) with
    | none => splitGoF m fuel (c :: brev) (c :: pieceRev) t
    | some 0 => pieceRev.reverse :: splitGoF m fuel (c :: brev) [c] t
    | some (n + 1) =>
      pieceRev.reverse :: splitGoF m fuel (((c :: t).take (n + 1)).reverse ++ brev) [] (t.drop n)

/-! ### `paragraph_breaks` (lines 49–54):
`\n\s*\n | (?<=\.)\s*\n\s*(?=[A-Z]) | \n\s*(?=\d+\.) | \n\s*(?=[•\-\*])` -/

/-- Branch `\n\s*\n`: a newline, greedy whitespace, then a newline.  With a
maximal whitespace run `r` after the first newline, the greedy match ends at
the last newline inside `r`. -/
def paraAlt1 : List Char → Option Nat
  | '\n' :: t => (lastNlIdx (t.takeWhile isPySpace)).map (fun j => j + 2)
  | _ => none

/-- Branch `(?<=\.)\s*\n\s*(?=[A-Z])`: after a literal dot, a whitespace run
containing at least one newline, followed (lookahead) by an uppercase letter.
The greedy `\s*…\s*` consumes the whole maximal run, because the lookahead can
only hold at the first non-whitespace character. -/
def paraAlt2 (brev s : List Char) : Option Nat :=
  match brev with
  | '.' :: _ =>
    let r := s.takeWhile isPySpace
    if r.contains '\n' && (s.drop r.length).head?.any isUpperA then some r.length
    else none
  | _ => none

/-- Branch `\n\s*(?=\d+\.)`: newline, greedy whitespace, lookahead `\d+\.`. -/
def paraAlt3 : List Char → Option Nat
  | '\n' :: t =>
    let r := t.takeWhile isPySpace
    if numDotAt (t.drop r.length) then some (r.length + 1) else none
  | _ => none

/-- Branch `\n\s*(?=[•\-\*])`: newline, greedy whitespace, lookahead bullet. -/
def paraAlt4 : List Char → Option Nat
  | '\n' :: t =>
    let r := t.takeWhile isPySpace
    if (t.drop r.length).head?.any (fun c => c == '•' || c == '-' || c == '*') then
      some (r.length + 1)
    else none
  | _ => none

/-- The full `paragraph_breaks` alternation, branches tried in source order. -/
def paraMatchAt (brev s : List Char) : Option Nat :=
  (paraAlt1 s).orElse fun _ =>
    (paraAlt2 brev s).orElse fun _ =>
      (paraAlt3 s).orElse fun _ => paraAlt4 s

/-- `self.paragraph_breaks.split(text)` (line 106). -/
def pbSplit (t : Text) : List Text := splitGoF paraMatchAt t.length [] [] t

/-! ### `sentence_endings` (lines 42–46):
`(?<=[.!?])\s+(?=[A-Z]) | (?<=\.)\s+(?=\d+\.) | (?<=:]\s)\s*(?=[A-Z])` -/

/-- Branch `(?<=[.!?])\s+(?=[A-Z])`. -/
def sentAlt1 (brev s : List Char) : Option Nat :=
  match brev with
  | p :: _ =>
    if p == '.' || p == '!' || p == '?' then
      let r := s.takeWhile isPySpace
      if !r.isEmpty && (s.drop r.length).head?.any isUpperA then some r.length
      else none
    else none
  | [] => none

/-- Branch `(?<=\.)\s+(?=\d+\.)`. -/
def sentAlt2 (brev s : List Char) : Option Nat :=
  match brev with
  | '.' :: _ =>
    let r := s.takeWhile isPySpace
    if !r.isEmpty && numDotAt (s.drop r.length) then some r.length else none
  | _ => none

/-- Branch `(?<=:]\s)\s*(?=[A-Z])`: the three characters before the position
must be `:`, `]`, whitespace; then greedy `\s*` (possibly zero-width) with an
uppercase lookahead. -/
def sentAlt3 (brev s : List Char) : Option Nat :=
  match brev with
  | w :: ']' :: ':' :: _ =>
    if isPySpace w then
      let r := s.takeWhile isPySpace
      if (s.drop r.length).head?.any isUpperA then some r.length else none
    else none
  | _ => none

/-- The full `sentence_endings` alternation, branches tried in source order. -/
def sentMatchAt (brev s : List Char) : Option Nat :=
  (sentAlt1 brev s).orElse fun _ =>
    (sentAlt2 brev s).orElse fun _ => sentAlt3 brev s

/-- `self.sentence_endings.split(text)` (lines 202 and 212). -/
def sentSplit (t : Text) : List Text := splitGoF sentMatchAt t.length [] [] t

/-! ## Paragraph segmenter and quality filter -/

/-- `SmartChunker._is_meaningful_text` (lines 117–134): at least 5 words,
alphabetic ratio ≥ 0.6, distinct-word ratio ≥ 0.3 (exact rational comparisons;
see the module docstring for the float model). -/
def isMeaningfulText (t : Text) : Bool :=
  let ws := pywords t
  if ws.length < 5 then false
  else
    let alpha := (t.filter isPyAlpha).length
    if alpha * 5 < t.length * 3 then false
    else if countDistinct ws * 10 < ws.length * 3 then false
    else true

/-- `SmartChunker._split_paragraphs` (lines 103–115): split on
`paragraph_breaks`, strip each piece, keep it iff its length exceeds 20
characters and it is meaningful. -/
def splitParagraphs (t : Text) : List Text :=
  ((pbSplit t).map pystrip).filter (fun p => 20 < p.length && isMeaningfulText p)

/-! ## Overlap, sentence splitter, force split -/

/-- `SmartChunker._get_overlap_text` (lines 188–207). -/
def getOverlapText (cfg : ChunkConfig) (t : Text) : Text :=
  if t.isEmpty || cfg.overlap_size == 0 then []
  else
    let ws := pywords t
    if ws.length ≤ cfg.overlap_size then []
    else
      let overlapText := unwords (listLastN cfg.overlap_size ws)
      let sentences := sentSplit overlapText
      if 1 < sentences.length then
        pystrip (List.intercalate ['.', ' '] (listLastN 2 sentences)) ++ ['.']
      else overlapText

/-- Python's `range(0, stop, step)` over a possibly non-positive `step`:
`step = 0` raises ValueError (`none`); a negative `step` yields the empty
range; a positive `step` yields `0, step, 2*step, …` below `stop`. -/
def pyRange0 (stop : Nat) (step : Int) : Option (List Nat) :=
  if step = 0 then none
  else if step < 0 then some []
  else some ((List.range ((stop + step.toNat - 1) / step.toNat)).map (· * step.toNat))

/-- `SmartChunker._force_split_by_words` (lines 244–255): windows of
`target_chunk_size` words at stride `target_chunk_size - overlap_size`
(computed as a Python int, hence in `Int`), each joined by single spaces. -/
def forceSplitByWords (cfg : ChunkConfig) (t : Text) : Option (List Text) :=
  let ws := pywords t
  match pyRange0 ws.length ((cfg.target_chunk_size : Int) - (cfg.overlap_size : Int)) with
  | none => none
  | some idxs =>
    some (idxs.map (fun i => unwords ((ws.drop i).take cfg.target_chunk_size)))

/-- The sentence-packing loop of `_split_large_paragraph` (lines 217–242). -/
def packSentences (cfg : ChunkConfig) :
    List Text → List Text → Text → Nat → List Text
  | [], acc, cur, _ => if cur.isEmpty then acc else acc ++ [pystrip cur]
  | sRaw :: rest, acc, cur, sz =>
    let s := pystrip sRaw
    if s.isEmpty then packSentences cfg rest acc cur sz
    else
      let n := countWords s
      if sz + n ≤ cfg.target_chunk_size then
        packSentences cfg rest acc (cur ++ s ++ ['.', ' ']) (sz + n)
      else
        packSentences cfg rest (if cur.isEmpty then acc else acc ++ [pystrip cur])
          (s ++ ['.', ' ']) n

/-- `SmartChunker._split_large_paragraph` (lines 209–242): split into
sentences; when no boundary is found, fall back to the forced word split,
otherwise pack sentences greedily up to the target size. -/
def splitLargeParagraph (cfg : ChunkConfig) (t : Text) : Option (List Text) :=
  let sentences := sentSplit t
  if sentences.length ≤ 1 then forceSplitByWords cfg t
  else some (packSentences cfg sentences [] [] 0)

/-! ## Chunk assembler (`_create_semantic_chunks`, lines 136–186) -/

/-- The assembler loop.  State: accumulated chunks, current chunk, current
size; the four branches in source order (fits / flush-and-restart / oversized
paragraph / force-append), then the final min-guarded emission.  `none`
propagates the ValueError of a zero stride inside the forced word split. -/
def cscGo (cfg : ChunkConfig) :
    List Text → List Text → Text → Nat → Option (List Text)
  | [], acc, cur, sz =>
    if !cur.isEmpty && cfg.min_chunk_size ≤ sz then some (acc ++ [pystrip cur])
    else some acc
  | p :: ps, acc, cur, sz =>
    let pw := countWords p
    if sz + pw ≤ cfg.target_chunk_size then
      cscGo cfg ps acc (if cur.isEmpty then p else cur ++ '\n' :: '\n' :: p) (sz + pw)
    else if cfg.min_chunk_size ≤ sz then
      let acc' := if cur.isEmpty then acc else acc ++ [pystrip cur]
      let ov := getOverlapText cfg cur
      let cur' := if ov.isEmpty then p else ov ++ p
      cscGo cfg ps acc' cur' (countWords cur')
    else if cfg.max_chunk_size < pw then
      let acc' := if cur.isEmpty then acc else acc ++ [pystrip cur]
      match splitLargeParagraph cfg p with
      | none => none
      | some subs =>
        cscGo cfg ps (acc' ++ subs.dropLast) (subs.getLastD []) (countWords (subs.getLastD []))
    else
      cscGo cfg ps acc (cur ++ '\n' :: '\n' :: p) (sz + pw)

/-- `SmartChunker._create_semantic_chunks`. -/
def createSemanticChunks (cfg : ChunkConfig) (paras : List Text) : Option (List Text) :=
  cscGo cfg paras [] [] 0

/-- Provenance of an emitted chunk, for the instrumented assembler: `flushed` =
flush-and-restart emission (line 156), `preflush` = pending chunk flushed on an
oversized paragraph (line 167), `subchunk` = non-final sub-chunk of an
oversized paragraph (line 171), `tail` = final emission after the loop
(line 184). -/
inductive EmitTag where
  | flushed | preflush | subchunk | tail
deriving DecidableEq, Repr

/-- Instrumented copy of `cscGo` that tags each emitted chunk with the branch
that emitted it; used only to express chunk provenance in theorems. -/
def cscGoT (cfg : ChunkConfig) :
    List Text → List (Text × EmitTag) → Text → Nat → Option (List (Text × EmitTag))
  | [], acc, cur, sz =>
    if !cur.isEmpty && cfg.min_chunk_size ≤ sz then
      some (acc ++ [(pystrip cur, EmitTag.tail)])
    else some acc
  | p :: ps, acc, cur, sz =>
    let pw := countWords p
    if sz + pw ≤ cfg.target_chunk_size then
      cscGoT cfg ps acc (if cur.isEmpty then p else cur ++ '\n' :: '\n' :: p) (sz + pw)
    else if cfg.min_chunk_size ≤ sz then
      let acc' := if cur.isEmpty then acc else acc ++ [(pystrip cur, EmitTag.flushed)]
      let ov := getOverlapText cfg cur
      let cur' := if ov.isEmpty then p else ov ++ p
      cscGoT cfg ps acc' cur' (countWords cur')
    else if cfg.max_chunk_size < pw then
      let acc' := if cur.isEmpty then acc else acc ++ [(pystrip cur, EmitTag.preflush)]
      match splitLargeParagraph cfg p with
      | none => none
      | some subs =>
        cscGoT cfg ps (acc' ++ subs.dropLast.map (fun s => (s, EmitTag.subchunk)))
          (subs.getLastD []) (countWords (subs.getLastD []))
    else
      cscGoT cfg ps acc (cur ++ '\n' :: '\n' :: p) (sz + pw)

/-- Tagged variant of `createSemanticChunks`. -/
def createSemanticChunksT (cfg : ChunkConfig) (paras : List Text) :
    Option (List (Text × EmitTag)) :=
  cscGoT cfg paras [] [] 0

/-! ## Finalizer / classifier -/

/-- The `chunk_type` values (lines 285–299). -/
inductive ChunkType where
  | numbered_list | bullet_list | heading_section
  | short_passage | long_passage | standard_paragraph
deriving DecidableEq, Repr

/-- `re.search(r"^\d+\.|\n\d+\.", text)` as a Boolean (no MULTILINE flag, so
`^` anchors only at the string start). -/
def searchNumbered (t : Text) : Bool :=
  numDotAt t || nlScan t
where
  nlScan : List Char → Bool
    | [] => false
    | c :: rest => (c == '\n' && numDotAt rest) || nlScan rest

/-- `re.search(r"^[•\-\*]|\n[•\-\*]", text)` as a Boolean. -/
def searchBullet (t : Text) : Bool :=
  bulletAt t || nlScan t
where
  bulletAt (s : List Char) : Bool :=
    s.head?.any (fun c => c == '•' || c == '-' || c == '*')
  nlScan : List Char → Bool
    | [] => false
    | c :: rest => (c == '\n' && bulletAt rest) || nlScan rest

/-- `re.search(r"[A-Z][A-Z\s]{10,}", text)` as a Boolean: an uppercase letter
followed by at least 10 characters, each uppercase or whitespace. -/
def searchCapsRun : Text → Bool
  | [] => false
  | c :: rest =>
    (isUpperA c && (rest.take 10).length == 10 &&
      (rest.take 10).all (fun d => isUpperA d || isPySpace d)) || searchCapsRun rest

/-- `SmartChunker._classify_chunk_type` (lines 285–299). -/
def classifyChunkType (t : Text) : ChunkType :=
  if searchNumbered t then ChunkType.numbered_list
  else if searchBullet t then ChunkType.bullet_list
  else if searchCapsRun t then ChunkType.heading_section
  else if countWords t < 50 then ChunkType.short_passage
  else if 300 < countWords t then ChunkType.long_passage
  else ChunkType.standard_paragraph

/-- The output chunk record (text plus the metadata dict of lines 270–279). -/
structure Chunk where
  text : Text
  document_name : Text
  chunk_index : Nat
  word_count : Nat
  char_count : Nat
  chunk_type : ChunkType
deriving DecidableEq, Repr

/-- The enumerated finalization loop of `_finalize_chunks` (lines 261–281):
`i` is the `enumerate` index, advanced on every input chunk, kept or dropped. -/
def finalizeGo (name : Text) : Nat → List Text → List Chunk
  | _, [] => []
  | i, c :: t =>
    if isMeaningfulText c then
      ⟨c, name, i, countWords c, c.length, classifyChunkType c⟩ :: finalizeGo name (i + 1) t
    else finalizeGo name (i + 1) t

/-- `SmartChunker._finalize_chunks` (lines 257–283). -/
def finalizeChunks (chunks : List Text) (name : Text) : List Chunk :=
  finalizeGo name 0 chunks

/-- `SmartChunker.chunk_document` (lines 66–82): preprocess, split into
paragraphs, assemble, finalize. -/
def chunkDocument (cfg : ChunkConfig) (t name : Text) : Option (List Chunk) :=
  (createSemanticChunks cfg (splitParagraphs (preprocessText t))).map
    (fun cs => finalizeChunks cs name)

/-! ## Word-count lemmas -/

theorem pywords_cons_space {c : Char} (hc : isPySpace c = true) (b : List Char) :
    pywords (c :: b) = pywords b := by
  simp [pywords, pywordsAux, hc]

theorem pywordsAux_append_sep {c : Char} (hc : isPySpace c = true) :
    ∀ (a : List Char) (cur : List Char),
      pywordsAux (a ++ [c]) cur = pywordsAux a cur := by
  intro a
  induction a with
  | nil =>
    intro cur
    cases cur with
    | nil => simp [pywordsAux, hc]
    | cons x xs => simp [pywordsAux, hc]
  | cons d t ih =>
    intro cur
    by_cases hd : isPySpace d = true
    · cases cur with
      | nil => simp [pywordsAux, hd, ih]
      | cons x xs => simp [pywordsAux, hd, ih]
    · simp [pywordsAux, hd, ih]

theorem pywordsAux_split_sep {c : Char} (hc : isPySpace c = true) (b : List Char) :
    ∀ (a : List Char) (cur : List Char),
      pywordsAux (a ++ c :: b) cur = pywordsAux (a ++ [c]) cur ++ pywordsAux b [] := by
  intro a
  induction a with
  | nil =>
    intro cur
    cases cur with
    | nil => simp [pywordsAux, hc]
    | cons x xs => simp [pywordsAux, hc]
  | cons d t ih =>
    intro cur
    by_cases hd : isPySpace d = true
    · cases cur with
      | nil => simp [pywordsAux, hd, ih]
      | cons x xs => simp [pywordsAux, hd, ih]
    · simp [pywordsAux, hd, ih]

theorem pywords_append_space {c : Char} (hc : isPySpace c = true) (a b : List Char) :
    pywords (a ++ c :: b) = pywords a ++ pywords b := by
  unfold pywords
  rw [pywordsAux_split_sep hc b a [], pywordsAux_append_sep hc a []]

theorem pywords_eq_nil_of_allws {t : List Char} (h : ∀ c ∈ t, isPySpace c = true) :
    pywords t = [] := by
  induction t with
  | nil => rfl
  | cons c r ih =>
    rw [pywords_cons_space (h c (List.mem_cons_self c r))]
    exact ih (fun d hd => h d (List.mem_cons_of_mem c hd))

theorem pywords_append_allws {t : List Char} (h : ∀ c ∈ t, isPySpace c = true)
    (s : List Char) : pywords (s ++ t) = pywords s := by
  induction t generalizing s with
  | nil => simp
  | cons c r ih =>
    have hc : isPySpace c = true := h c (List.mem_cons_self c r)
    rw [pywords_append_space hc s r,
      pywords_eq_nil_of_allws (fun d hd => h d (List.mem_cons_of_mem c hd))]
    simp

theorem pywords_dropWhile_ws (s : List Char) :
    pywords (s.dropWhile isPySpace) = pywords s := by
  induction s with
  | nil => rfl
  | cons c t ih =>
    by_cases hc : isPySpace c = true
    · rw [List.dropWhile_cons, if_pos hc, ih, pywords_cons_space hc]
    · rw [List.dropWhile_cons, if_neg hc]

theorem pywords_pystrip (s : List Char) : pywords (pystrip s) = pywords s := by
  rw [← pywords_dropWhile_ws s]
  unfold pystrip
  generalize s.dropWhile isPySpace = u
  have hsplit := List.takeWhile_append_dropWhile isPySpace u.reverse
  have hws : ∀ c ∈ (u.reverse.takeWhile isPySpace).reverse, isPySpace c = true := by
    intro c hc
    exact List.mem_takeWhile_imp (by simpa using hc)
  conv_rhs => rw [← List.reverse_reverse u, ← hsplit, List.reverse_append]
  exact (pywords_append_allws hws _).symm

theorem countWords_pystrip (s : List Char) : countWords (pystrip s) = countWords s := by
  unfold countWords
  rw [pywords_pystrip]

theorem countWords_append_nl2 (a b : List Char) :
    countWords (a ++ '\n' :: '\n' :: b) = countWords a + countWords b := by
  unfold countWords
  rw [pywords_append_space (by decide) a ('\n' :: b), pywords_cons_space (by decide) b]
  simp

/-! ## Claim C1 -/

/-- Claim C1 (refuted by the code — evidence for the code bug): two meaningful
paragraphs separated by one blank line are NOT kept separated by `"\n\n"`;
the OCR fix `re.sub(r"\s{2,}", " ", …)` (commented `# Multiple spaces`) runs
first and collapses the blank line to a single space, so the preprocessed
output contains no `"\n\n"` at all.  The claim (and spec §4.1) say the
separator is normalized to exactly `"\n\n"`. -/
theorem c1_preprocess_drops_blank_line :
    preprocessText "one two three four five.\n\nsix seven eight nine ten.".toList
      = "one two three four five. six seven eight nine ten.".toList
    ∧ isMeaningfulText "one two three four five.".toList = true
    ∧ isMeaningfulText "six seven eight nine ten.".toList = true
    ∧ (preprocessText "one two three four five.\n\nsix seven eight nine ten.".toList).all
        (fun c => c ≠ '\n') = true := by
  decide

/-! ## Claim C3 -/

/-- Claim C3 (counterexample): constructing a `ChunkConfig` that violates the
spec §3 invariant raises no configuration error — the first invalid
configuration (`min_chunk_size = 400 > target_chunk_size = 300`) flows into
`chunk_document`, which completes normally (returning `some []`); the second
(`overlap_size = target_chunk_size = 10`, stride 0) fails only later, inside
the forced word split (the modelled `range` ValueError, `none`), not before
processing begins. -/
theorem c3_counterexample :
    (¬ specValidChunkConfig (mkChunkConfig 300 400 500 50 true true))
    ∧ chunkDocument (mkChunkConfig 300 400 500 50 true true)
        "alpha beta gamma delta epsilon zeta eta theta iota kappa lambda mu".toList
        "doc".toList = some []
    ∧ (¬ specValidChunkConfig (mkChunkConfig 10 5 12 10 true true))
    ∧ chunkDocument (mkChunkConfig 10 5 12 10 true true)
        "alpha beta gamma delta epsilon zeta eta theta iota kappa lambda mu nu".toList
        "doc".toList = none := by
  decide

/-- Claim C3 (amended): `ChunkConfig` construction performs no validation
whatsoever — every combination of field values is accepted, the values are
stored verbatim (never clamped), and no error can be raised at construction
time; invalid configurations are only detected, if at all, during processing. -/
theorem c3_no_validation (t m M o : Nat) (pp sa : Bool) :
    (mkChunkConfig t m M o pp sa).target_chunk_size = t
    ∧ (mkChunkConfig t m M o pp sa).min_chunk_size = m
    ∧ (mkChunkConfig t m M o pp sa).max_chunk_size = M
    ∧ (mkChunkConfig t m M o pp sa).overlap_size = o
    ∧ (mkChunkConfig t m M o pp sa).preserve_paragraphs = pp
    ∧ (mkChunkConfig t m M o pp sa).sentence_aware = sa :=
  ⟨rfl, rfl, rfl, rfl, rfl, rfl⟩

/-! ## Claim C4 -/

/-- Claim C4 (counterexample): the candidate paragraph `"aa bb cc dd ee"`
(the whole text, already trimmed) passes the §4.2.1 quality filter, yet
`_split_paragraphs` drops it, because of the additional retention criterion
`len(para) > 20` (line 112) that the claim says does not exist. -/
theorem c4_counterexample :
    pbSplit "aa bb cc dd ee".toList = ["aa bb cc dd ee".toList]
    ∧ pystrip "aa bb cc dd ee".toList = "aa bb cc dd ee".toList
    ∧ isMeaningfulText "aa bb cc dd ee".toList = true
    ∧ splitParagraphs "aa bb cc dd ee".toList = [] := by
  decide

/-- Claim C4 (amended): `_split_paragraphs` retains a trimmed candidate
paragraph iff it is the trimmed form of a `paragraph_breaks` piece AND its
length exceeds 20 characters AND it passes the §4.2.1 quality filter; dropped
candidates are discarded entirely, never merged into neighbours. -/
theorem c4_retention_iff (t p : Text) :
    p ∈ splitParagraphs t ↔
      p ∈ (pbSplit t).map pystrip ∧ 20 < p.length ∧ isMeaningfulText p = true := by
  unfold splitParagraphs
  rw [List.mem_filter]
  simp [and_assoc]

/-- Witness for C4 at a concrete input: a 23-character meaningful text is
retained. -/
theorem c4_witness :
    "aaa bbb ccc ddd eee fff".toList ∈ splitParagraphs "aaa bbb ccc ddd eee fff".toList :=
  (c4_retention_iff "aaa bbb ccc ddd eee fff".toList "aaa bbb ccc ddd eee fff".toList).mpr
    (by decide)

/-! ## Claim C5 -/

/-- Claim C5 (counterexample): (a) when the overlap window contains a sentence
boundary, `_get_overlap_text` does not return the last `overlap_size` words —
it returns the last two sentence fragments joined by `". "` with an extra
trailing period; (b) even with no boundary anywhere, the flush-and-restart
branch prefixes the overlap to the next paragraph with NO separator
(`overlap_text + paragraph`, line 160), so the last overlap word fuses with
the paragraph's first word and the first ≤N words of chunk i+1 do not equal
the last ≤N words of chunk i (here `"ddee"` vs `"dd"`); the tagged run shows
chunk 2 was indeed started by flush-and-restart (chunk 1 tagged `flushed`)
with no oversized-paragraph split intervening. -/
theorem c5_counterexample :
    (getOverlapText (mkChunkConfig 10 3 50 3 true true) "aa bb cc dd. Ee ff".toList
        = "dd.. Ee ff.".toList
      ∧ "dd.. Ee ff.".toList
          ≠ unwords (listLastN 3 (pywords "aa bb cc dd. Ee ff".toList)))
    ∧ (createSemanticChunksT (mkChunkConfig 10 3 50 2 true true)
        ["aa bb cc dd".toList, "ee ff gg hh ii jj kk".toList]
        = some [("aa bb cc dd".toList, EmitTag.flushed),
                ("cc ddee ff gg hh ii jj kk".toList, EmitTag.tail)]
      ∧ (pywords "cc ddee ff gg hh ii jj kk".toList).take 2
          ≠ listLastN 2 (pywords "aa bb cc dd".toList)) := by
  decide

/-- Claim C5 (amended): `_get_overlap_text` returns the empty string whenever
the chunk has at most `overlap_size` words or `overlap_size` is 0; otherwise it
takes the window of the last `overlap_size` words and, PROVIDED the window
contains no sentence boundary, returns exactly that window joined by single
spaces (with a boundary it instead returns the last two fragments joined by
`". "` plus a period); the flush-and-restart branch then prefixes this text to
the next paragraph with no separator, fusing the boundary words. -/
theorem c5_overlap_window (cfg : ChunkConfig) (t : Text) :
    ((pywords t).length ≤ cfg.overlap_size ∨ cfg.overlap_size = 0 →
      getOverlapText cfg t = [])
    ∧ (cfg.overlap_size < (pywords t).length → 0 < cfg.overlap_size →
        (sentSplit (unwords (listLastN cfg.overlap_size (pywords t)))).length ≤ 1 →
        getOverlapText cfg t = unwords (listLastN cfg.overlap_size (pywords t))) := by
  constructor
  · intro h
    unfold getOverlapText
    rcases h with h | h
    · by_cases he : t.isEmpty
      · simp [he]
      · simp [he, h]
    · simp [h]
  · intro h1 h2 h3
    have hne : t ≠ [] := by
      intro he
      rw [he] at h1
      exact absurd h1 (by simp [pywords, pywordsAux])
    have he : t.isEmpty = false := by
      cases t with
      | nil => exact absurd rfl hne
      | cons a b => rfl
    have ho : (cfg.overlap_size == 0) = false := by
      simp only [beq_eq_false_iff_ne, ne_eq]
      omega
    unfold getOverlapText
    rw [he, ho]
    simp only [Bool.or_self, Bool.false_eq_true, if_false]
    rw [if_neg (by omega)]
    rw [if_neg (by omega)]

/-- Witness for C5 at a concrete input: overlap 2 of a 4-word chunk with no
boundary is exactly the last two words. -/
theorem c5_witness :
    getOverlapText (mkChunkConfig 10 3 50 2 true true) "aa bb cc dd".toList
      = "cc dd".toList :=
  ((c5_overlap_window (mkChunkConfig 10 3 50 2 true true) "aa bb cc dd".toList).2
    (by decide) (by decide) (by decide)).trans (by decide)

/-! ## Claim C6 -/

/-- Claim C6 (counterexample): with input chunk texts good/bad/good, the two
surviving chunks receive `chunk_index` 0 and 2 — the pre-drop `enumerate`
positions — not the consecutive post-drop positions 0 and 1 the claim
requires. -/
theorem c6_counterexample :
    (finalizeChunks
        ["alpha beta gamma delta epsilon".toList, "xx".toList,
         "zeta eta theta iota kappa".toList] "doc".toList).map
      (fun ch => ch.chunk_index) = [0, 2]
    ∧ ([0, 2] : List Nat) ≠ [0, 1] := by
  decide

/-- Claim C6 (amended): `_finalize_chunks` assigns each surviving chunk the
0-based `enumerate` index of its position in the INPUT sequence (pre-drop), so
the returned indices are exactly the input positions whose chunk text passes
the quality filter — strictly increasing, but with gaps where chunks were
dropped. -/
theorem c6_chunk_index_pre_drop (cs : List Text) (name : Text) :
    (finalizeChunks cs name).map (fun ch => ch.chunk_index)
      = ((cs.enum.filter (fun pr => isMeaningfulText pr.2)).map Prod.fst) := by
  unfold finalizeChunks
  have H : ∀ i cs, (finalizeGo name i cs).map (fun ch => ch.chunk_index)
      = (((cs : List Text).enumFrom i).filter (fun pr => isMeaningfulText pr.2)).map Prod.fst := by
    intro i cs
    induction cs generalizing i with
    | nil => simp [finalizeGo]
    | cons c t ih =>
      by_cases h : isMeaningfulText c = true
      · simp [finalizeGo, List.enumFrom, h, List.filter_cons, ih]
      · simp only [Bool.not_eq_true] at h
        simp [finalizeGo, List.enumFrom, h, List.filter_cons, ih]
  rw [H 0 cs, List.enum]

/-! ## Claim C8 -/

/-- Claim C8 (counterexample): `"ABCDEFGHIJ"` is a run of exactly 10
consecutive characters, each an uppercase letter (hence uppercase-or-space),
contains no numbered-list or bullet line, yet is NOT classified
`heading_section` (it is `short_passage`): the regex `[A-Z][A-Z\s]{10,}`
requires an uppercase letter followed by 10 more characters, i.e. a run of at
least 11. -/
theorem c8_counterexample :
    ("ABCDEFGHIJ".toList.length = 10)
    ∧ (∀ c ∈ "ABCDEFGHIJ".toList, isUpperA c = true ∨ c = ' ')
    ∧ searchNumbered "ABCDEFGHIJ".toList = false
    ∧ searchBullet "ABCDEFGHIJ".toList = false
    ∧ classifyChunkType "ABCDEFGHIJ".toList ≠ ChunkType.heading_section := by
  decide

/-- Claim C8 (amended): the classifier checks its conditions in the fixed
source order with first match winning; a chunk with no numbered-list match and
no bullet match that contains an uppercase letter followed by at least 10
consecutive characters, each uppercase or whitespace (a run of ≥ 11 starting
with an uppercase letter), is classified `heading_section`. -/
theorem c8_classifier_order (t : Text) :
    (searchNumbered t = true → classifyChunkType t = ChunkType.numbered_list)
    ∧ (searchNumbered t = false → searchBullet t = true →
        classifyChunkType t = ChunkType.bullet_list)
    ∧ (searchNumbered t = false → searchBullet t = false → searchCapsRun t = true →
        classifyChunkType t = ChunkType.heading_section) := by
  refine ⟨fun h1 => ?_, fun h1 h2 => ?_, fun h1 h2 h3 => ?_⟩
  · simp [classifyChunkType, h1]
  · simp [classifyChunkType, h1, h2]
  · simp [classifyChunkType, h1, h2, h3]

/-- Witness for C8 at a concrete input: an 11-character all-caps run is
classified `heading_section`. -/
theorem c8_witness :
    classifyChunkType "ABCDEFGHIJK".toList = ChunkType.heading_section :=
  (c8_classifier_order "ABCDEFGHIJK".toList).2.2 (by decide) (by decide) (by decide)

/-! ## Claim C9 -/

/-- Claim C9: `chunk_document` is deterministic — two runs on equal
`(config, text, document_name)` triples return equal chunk sequences (texts and
all metadata, `chunk_type` included).  The embedding is a pure function of
exactly these inputs, mirroring the source, which reads no global mutable
state, clock or randomness. -/
theorem c9_deterministic (cfg₁ cfg₂ : ChunkConfig) (t₁ t₂ n₁ n₂ : Text)
    (hc : cfg₁ = cfg₂) (ht : t₁ = t₂) (hn : n₁ = n₂) :
    chunkDocument cfg₁ t₁ n₁ = chunkDocument cfg₂ t₂ n₂ := by
  subst hc
  subst ht
  subst hn
  rfl

/-- Witness for C9 at a concrete input. -/
theorem c9_witness :
    chunkDocument defaultChunkConfig "aa bb".toList "d".toList
      = chunkDocument defaultChunkConfig "aa bb".toList "d".toList :=
  c9_deterministic _ _ _ _ _ _ rfl rfl rfl

/-! ## Claim C2 -/

theorem countWords_nil : countWords ([] : Text) = 0 := rfl

theorem map_fst_tag (tg : EmitTag) (l : List Text) :
    (l.map (fun s => (s, tg))).map Prod.fst = l := by
  induction l with
  | nil => rfl
  | cons a t ih => simp [ih]

/-- Assembler invariant: provided the running size equals the word count of
the current chunk (which the loop maintains), every chunk emitted by the
min-guarded branches — flush-and-restart (`flushed`) and the final emission
(`tail`) — has at least `min_chunk_size` words. -/
theorem cscGoT_min (cfg : ChunkConfig) :
    ∀ (ps : List Text) (acc : List (Text × EmitTag)) (cur : Text)
      (out : List (Text × EmitTag)),
      (∀ x ∈ acc, (x.2 = EmitTag.flushed ∨ x.2 = EmitTag.tail) →
        cfg.min_chunk_size ≤ countWords x.1) →
      cscGoT cfg ps acc cur (countWords cur) = some out →
      ∀ x ∈ out, (x.2 = EmitTag.flushed ∨ x.2 = EmitTag.tail) →
        cfg.min_chunk_size ≤ countWords x.1 := by
  intro ps
  induction ps with
  | nil =>
    intro acc cur out hacc hout
    simp only [cscGoT] at hout
    split at hout
    · rename_i hcond
      simp only [Bool.and_eq_true, decide_eq_true_eq] at hcond
      rw [Option.some_inj] at hout
      subst hout
      intro x hx htag
      rcases List.mem_append.mp hx with h | h
      · exact hacc x h htag
      · rw [List.mem_singleton.mp h]
        simpa [countWords_pystrip] using hcond.2
    · rw [Option.some_inj] at hout
      subst hout
      exact hacc
  | cons p ps ih =>
    intro acc cur out hacc hout
    simp only [cscGoT] at hout
    split at hout
    · by_cases hce : cur.isEmpty = true
      · rw [if_pos hce] at hout
        rw [List.isEmpty_iff.mp hce] at hout
        simp only [countWords_nil, Nat.zero_add] at hout
        exact ih acc p out hacc hout
      · rw [if_neg hce, ← countWords_append_nl2] at hout
        exact ih _ _ _ hacc hout
    · split at hout
      · rename_i hnotfit hmin
        refine fun x hx htag => ih _ _ _ ?_ hout x hx htag
        intro y hy hytag
        by_cases hce : cur.isEmpty = true
        · rw [if_pos hce] at hy
          exact hacc y hy hytag
        · rw [if_neg hce] at hy
          rcases List.mem_append.mp hy with h | h
          · exact hacc y h hytag
          · rw [List.mem_singleton.mp h]
            simpa [countWords_pystrip] using hmin
      · split at hout
        · rename_i hnotfit hnotmin hbig
          split at hout
          · exact absurd hout (by simp)
          · rename_i subs hsubs
            refine fun x hx htag => ih _ _ _ ?_ hout x hx htag
            intro y hy hytag
            rcases List.mem_append.mp hy with h | h
            · by_cases hce : cur.isEmpty = true
              · rw [if_pos hce] at h
                exact hacc y h hytag
              · rw [if_neg hce] at h
                rcases List.mem_append.mp h with h2 | h2
                · exact hacc y h2 hytag
                · rw [List.mem_singleton.mp h2] at hytag
                  rcases hytag with h3 | h3 <;> exact absurd h3 (by simp)
            · obtain ⟨s, -, rfl⟩ := List.mem_map.mp h
              rcases hytag with h3 | h3 <;> exact absurd h3 (by simp)
        · rw [← countWords_append_nl2] at hout
          exact ih _ _ _ hacc hout

/-- The instrumented assembler computes the same chunks as the plain one. -/
theorem cscGo_eq_mapT (cfg : ChunkConfig) :
    ∀ (ps : List Text) (accT : List (Text × EmitTag)) (cur : Text) (sz : Nat),
      cscGo cfg ps (accT.map Prod.fst) cur sz
        = (cscGoT cfg ps accT cur sz).map (List.map Prod.fst) := by
  intro ps
  induction ps with
  | nil =>
    intro accT cur sz
    simp only [cscGo, cscGoT]
    split
    · simp
    · simp
  | cons p ps ih =>
    intro accT cur sz
    simp only [cscGo, cscGoT]
    split
    · exact ih accT _ _
    · split
      · by_cases hce : cur.isEmpty = true
        · simp only [hce, if_true]
          exact ih accT _ _
        · simp only [hce, if_false, Bool.false_eq_true]
          rw [show (accT.map Prod.fst) ++ [pystrip cur]
              = ((accT ++ [(pystrip cur, EmitTag.flushed)]).map Prod.fst) by simp]
          exact ih _ _ _
      · split
        · match hsp : splitLargeParagraph cfg p with
          | none => simp [hsp]
          | some subs =>
            simp only [hsp]
            by_cases hce : cur.isEmpty = true
            · simp only [hce, if_true]
              rw [show (accT.map Prod.fst) ++ subs.dropLast
                  = ((accT ++ subs.dropLast.map (fun s => (s, EmitTag.subchunk))).map
                      Prod.fst) by
                rw [List.map_append, map_fst_tag]]
              exact ih _ _ _
            · simp only [hce, if_false, Bool.false_eq_true]
              rw [show (accT.map Prod.fst ++ [pystrip cur]) ++ subs.dropLast
                  = (((accT ++ [(pystrip cur, EmitTag.preflush)])
                      ++ subs.dropLast.map (fun s => (s, EmitTag.subchunk))).map
                      Prod.fst) by
                rw [List.map_append, List.map_append, map_fst_tag]
                simp]
              exact ih _ _ _
        · exact ih accT _ _

/-- Claim C2 (counterexample): with the valid configuration
`target 10 / min 5 / max 12 / overlap 2` and paragraphs of 3 and 13 words
(the latter boundary-free), the first emitted chunk `"aa bb cc"` has 3 words,
below `min_chunk_size = 5`, is not the last chunk of the run, and was emitted
by the oversized-paragraph branch's pre-flush (tag `preflush`) — not by
force-append, the only exception the claim allows. -/
theorem c2_counterexample :
    createSemanticChunksT (mkChunkConfig 10 5 12 2 true true)
        ["aa bb cc".toList, "dd ee ff gg hh ii jj kk ll mm nn oo pp".toList]
      = some [("aa bb cc".toList, EmitTag.preflush),
              ("dd ee ff gg hh ii jj kk ll mm".toList, EmitTag.subchunk),
              ("ll mm nn oo pp".toList, EmitTag.tail)]
    ∧ createSemanticChunks (mkChunkConfig 10 5 12 2 true true)
        ["aa bb cc".toList, "dd ee ff gg hh ii jj kk ll mm nn oo pp".toList]
      = some ["aa bb cc".toList, "dd ee ff gg hh ii jj kk ll mm".toList,
              "ll mm nn oo pp".toList]
    ∧ countWords "aa bb cc".toList = 3
    ∧ (mkChunkConfig 10 5 12 2 true true).min_chunk_size = 5
    ∧ specValidChunkConfig (mkChunkConfig 10 5 12 2 true true) := by
  decide

/-- Claim C2 (amended): every chunk emitted by the assembler has word count
≥ `min_chunk_size` UNLESS it was emitted by the oversized-paragraph branch
(case 3) — either the pre-flush of the pending chunk or a non-final sub-chunk
of the sentence splitter.  In particular the force-append branch never emits a
chunk directly (its chunks only leave through the min-guarded flush or final
emission), and the "last chunk" exception in the claim is unnecessary while
the case-3 exception is mandatory. -/
theorem c2_assembler_min_unless_oversized (cfg : ChunkConfig) (paras : List Text)
    (out : List (Text × EmitTag))
    (h : createSemanticChunksT cfg paras = some out) :
    createSemanticChunks cfg paras = some (out.map Prod.fst)
    ∧ ∀ x ∈ out, x.2 ≠ EmitTag.preflush → x.2 ≠ EmitTag.subchunk →
        cfg.min_chunk_size ≤ countWords x.1 := by
  constructor
  · have hmap := cscGo_eq_mapT cfg paras [] [] 0
    simp only [List.map_nil] at hmap
    unfold createSemanticChunks
    unfold createSemanticChunksT at h
    rw [hmap, h]
    rfl
  · intro x hx h1 h2
    refine cscGoT_min cfg paras [] [] out
      (fun y hy => absurd hy (List.not_mem_nil y)) h x hx ?_
    obtain ⟨s, tg⟩ := x
    cases tg
    · exact Or.inl rfl
    · exact absurd rfl h1
    · exact absurd rfl h2
    · exact Or.inr rfl

/-- Witness for C2 at a concrete input: a single 4-word paragraph is emitted
by the final emission with at least `min_chunk_size = 3` words. -/
theorem c2_witness :
    (mkChunkConfig 10 3 50 2 true true).min_chunk_size
      ≤ countWords "aa bb cc dd".toList :=
  (c2_assembler_min_unless_oversized (mkChunkConfig 10 3 50 2 true true)
    ["aa bb cc dd".toList] [("aa bb cc dd".toList, EmitTag.tail)] (by decide)).2
    ("aa bb cc dd".toList, EmitTag.tail) (by decide) (by decide) (by decide)

/-! ## Claim C7 -/

/-- A concrete boundary-free token stream: `n+1` words `"a"` separated by
single spaces (used to instantiate the 1000-word scenario). -/
def altText : Nat → Text
  | 0 => ['a']
  | n + 1 => 'a' :: ' ' :: altText n

theorem pywords_altText : ∀ n, pywords (altText n) = List.replicate (n + 1) ['a']
  | 0 => by decide
  | n + 1 => by
    show pywordsAux ('a' :: ' ' :: altText n) [] = _
    rw [show pywordsAux ('a' :: ' ' :: altText n) [] = ['a'] :: pywordsAux (altText n) [] by
      simp [pywordsAux, show isPySpace 'a' = false by decide, show isPySpace ' ' = true by decide]]
    rw [show pywordsAux (altText n) [] = pywords (altText n) from rfl, pywords_altText n]
    rfl

theorem altText_chars : ∀ n, ∀ c ∈ altText n, c = 'a' ∨ c = ' '
  | 0, c, hc => by
    simp only [altText, List.mem_singleton] at hc
    exact Or.inl hc
  | n + 1, c, hc => by
    simp only [altText, List.mem_cons] at hc
    rcases hc with rfl | rfl | hc
    · exact Or.inl rfl
    · exact Or.inr rfl
    · exact altText_chars n c hc

/-- The `sentence_endings` alternation cannot match anywhere in a text whose
scanned prefix consists only of `'a'` and `' '`: every branch needs `.`, `!`,
`?` or `:]` in the lookbehind. -/
theorem sentMatchAt_none {brev : List Char} (h : ∀ c ∈ brev, c = 'a' ∨ c = ' ')
    (s : List Char) : sentMatchAt brev s = none := by
  match brev, h with
  | [], _ => rfl
  | [b0], h =>
    rcases h b0 (by simp) with rfl | rfl <;> rfl
  | [b0, b1], h =>
    rcases h b0 (by simp) with rfl | rfl <;>
      rcases h b1 (by simp) with rfl | rfl <;> rfl
  | b0 :: b1 :: b2 :: rest, h =>
    rcases h b0 (by simp) with rfl | rfl <;>
      rcases h b1 (by simp) with rfl | rfl <;>
        rcases h b2 (by simp) with rfl | rfl <;> rfl

/-- With no match anywhere, the split driver returns the single piece made of
everything scanned. -/
theorem splitGoF_no_match :
    ∀ (fuel : Nat) (brev pieceRev s : List Char),
      s.length ≤ fuel →
      (∀ c ∈ brev, c = 'a' ∨ c = ' ') → (∀ c ∈ s, c = 'a' ∨ c = ' ') →
      splitGoF sentMatchAt fuel brev pieceRev s = [pieceRev.reverse ++ s] := by
  intro fuel
  induction fuel with
  | zero =>
    intro brev pieceRev s hlen hb hs
    have : s = [] := List.length_eq_zero.mp (Nat.le_zero.mp hlen)
    subst this
    simp [splitGoF]
  | succ fuel ih =>
    intro brev pieceRev s hlen hb hs
    match s, hs with
    | [], _ => simp [splitGoF]
    | c :: t, hs =>
      rw [show splitGoF sentMatchAt (fuel + 1) brev pieceRev (c :: t)
          = splitGoF sentMatchAt fuel (c :: brev) (c :: pieceRev) t by
        simp [splitGoF, sentMatchAt_none hb (c :: t)]]
      rw [ih (c :: brev) (c :: pieceRev) t
        (by simp only [List.length_cons] at hlen; omega)
        (by
          intro d hd
          rcases List.mem_cons.mp hd with rfl | hd
          · exact hs d (List.mem_cons_self d t)
          · exact hb d hd)
        (fun d hd => hs d (List.mem_cons_of_mem c hd))]
      simp

theorem sentSplit_altText (n : Nat) : sentSplit (altText n) = [altText n] := by
  unfold sentSplit
  rw [splitGoF_no_match (altText n).length [] [] (altText n) (Nat.le_refl _)
    (fun c hc => absurd hc (List.not_mem_nil c)) (altText_chars n)]
  rfl

/-- Claim C7: on a paragraph with no sentence boundary,
`_split_large_paragraph` falls back to `_force_split_by_words`; with a positive
stride `s = target_chunk_size − overlap_size` the forced split is exactly the
windows `words[k·s : k·s + target_chunk_size]` for `k = 0, 1, 2, …`, each
joined by single spaces; and for the default configuration (`target 300`,
`overlap 50`) on a 1000-word stream the result is exactly the four windows at
word offsets 0, 250, 500 and 750, with consecutive windows sharing exactly the
50 overlap words. -/
theorem c7_force_split_windows (cfg : ChunkConfig) (t : Text)
    (hs : (sentSplit t).length ≤ 1) :
    splitLargeParagraph cfg t = forceSplitByWords cfg t
    ∧ (cfg.overlap_size < cfg.target_chunk_size →
        forceSplitByWords cfg t
          = some ((List.range
              (((pywords t).length + (cfg.target_chunk_size - cfg.overlap_size) - 1)
                / (cfg.target_chunk_size - cfg.overlap_size))).map
              (fun k => unwords (((pywords t).drop
                  (k * (cfg.target_chunk_size - cfg.overlap_size))).take
                  cfg.target_chunk_size))))
    ∧ ((pywords t).length = 1000 →
        splitLargeParagraph defaultChunkConfig t
          = some [unwords ((pywords t).take 300),
                  unwords (((pywords t).drop 250).take 300),
                  unwords (((pywords t).drop 500).take 300),
                  unwords (((pywords t).drop 750).take 300)]
        ∧ ((pywords t).take 300).drop 250 = ((pywords t).drop 250).take 50
        ∧ (((pywords t).drop 250).take 300).drop 250 = ((pywords t).drop 500).take 50
        ∧ (((pywords t).drop 500).take 300).drop 250 = ((pywords t).drop 750).take 50
        ∧ (((pywords t).take 300).drop 250).length = 50) := by
  have hfall : ∀ cfg2 : ChunkConfig, splitLargeParagraph cfg2 t = forceSplitByWords cfg2 t := by
    intro cfg2
    simp only [splitLargeParagraph, if_pos hs]
  refine ⟨hfall cfg, ?_, ?_⟩
  · intro hlt
    have hcast : ((cfg.target_chunk_size : Int) - (cfg.overlap_size : Int))
        = ((cfg.target_chunk_size - cfg.overlap_size : Nat) : Int) := by
      omega
    simp only [forceSplitByWords, pyRange0, hcast]
    rw [if_neg (by omega), if_neg (by omega)]
    rw [show ((cfg.target_chunk_size - cfg.overlap_size : Nat) : Int).toNat
        = cfg.target_chunk_size - cfg.overlap_size from Int.toNat_natCast _]
    simp [List.map_map, Function.comp]
  · intro hL
    have hforce := hfall defaultChunkConfig
    have hwin : forceSplitByWords defaultChunkConfig t
        = some [unwords ((pywords t).take 300),
                unwords (((pywords t).drop 250).take 300),
                unwords (((pywords t).drop 500).take 300),
                unwords (((pywords t).drop 750).take 300)] := by
      have hr : pyRange0 (pywords t).length
          ((defaultChunkConfig.target_chunk_size : Int)
            - (defaultChunkConfig.overlap_size : Int)) = some [0, 250, 500, 750] := by
        rw [hL]
        decide
      simp only [forceSplitByWords, hr]
      rfl
    refine ⟨hforce.trans hwin, ?_, ?_, ?_, ?_⟩
    · rw [List.drop_take 300 250 (pywords t)]
    · rw [List.drop_take 300 250 ((pywords t).drop 250), List.drop_drop 250 250 (pywords t)]
    · rw [List.drop_take 300 250 ((pywords t).drop 500), List.drop_drop 250 500 (pywords t)]
    · simp [List.length_drop, List.length_take, hL]

/-- Witness for C7 at a concrete input: the 1000-word boundary-free stream
`altText 999` splits into exactly the four default-configuration windows. -/
theorem c7_witness :
    splitLargeParagraph defaultChunkConfig (altText 999)
      = some [unwords ((pywords (altText 999)).take 300),
              unwords (((pywords (altText 999)).drop 250).take 300),
              unwords (((pywords (altText 999)).drop 500).take 300),
              unwords (((pywords (altText 999)).drop 750).take 300)] :=
  ((c7_force_split_windows defaultChunkConfig (altText 999)
      (by rw [sentSplit_altText]; exact Nat.le_refl 1)).2.2
    (by rw [pywords_altText]; exact List.length_replicate 1000 ['a'])).1

/-! ## Claim C10 -/

theorem dropWhile_eq_nil_allws {l : List Char} (h : ∀ c ∈ l, isPySpace c = true) :
    l.dropWhile isPySpace = [] := by
  induction l with
  | nil => rfl
  | cons c t ih =>
    rw [List.dropWhile_cons, if_pos (h c (List.mem_cons_self c t))]
    exact ih (fun d hd => h d (List.mem_cons_of_mem c hd))

theorem pystrip_allws {l : List Char} (h : ∀ c ∈ l, isPySpace c = true) :
    pystrip l = [] := by
  unfold pystrip
  rw [dropWhile_eq_nil_allws h]
  rfl

/-- A word-bounded OCR fix whose pattern starts with a non-whitespace character
never fires on whitespace-only text. -/
theorem subWBF_allws {p0 : Char} (hp : isPySpace p0 = false) (pr repl : List Char) :
    ∀ (fuel : Nat) (prev : Option Char) (s : List Char),
      (∀ c ∈ s, isPySpace c = true) → subWBF p0 pr repl fuel prev s = s := by
  intro fuel
  induction fuel with
  | zero => intro prev s h; rfl
  | succ fuel ih =>
    intro prev s h
    match s, h with
    | [], _ => rfl
    | c :: t, h =>
      have hc : isPySpace c = true := h c (List.mem_cons_self c t)
      have hne : (p0 == c) = false := by
        simp only [beq_eq_false_iff_ne, ne_eq]
        intro heq
        rw [heq] at hp
        rw [hc] at hp
        exact Bool.true_eq_false ▸ hp
      rw [show subWBF p0 pr repl (fuel + 1) prev (c :: t)
          = c :: subWBF p0 pr repl fuel (some c) t by
        simp [subWBF, List.isPrefixOf, hne]]
      rw [ih (some c) t (fun d hd => h d (List.mem_cons_of_mem c hd))]

/-- Whitespace-only text collapses to a single whitespace character (or less)
under the `\s{2,}` fix. -/
theorem collapseWs_allws {s : List Char} (h : ∀ c ∈ s, isPySpace c = true) :
    (∀ c ∈ collapseWsRuns s, isPySpace c = true) ∧ (collapseWsRuns s).length ≤ 1 := by
  match s, h with
  | [], _ =>
    exact ⟨fun c hc => absurd hc (List.not_mem_nil c), by simp [collapseWsRuns, collapseWsAux]⟩
  | [c], h =>
    have hc := h c (by simp)
    constructor
    · intro d hd
      simp only [collapseWsRuns, collapseWsAux, List.head?_nil, Option.any_none,
        Bool.and_false, Bool.false_eq_true, if_false] at hd
      simp only [List.mem_singleton] at hd
      rw [hd]
      exact hc
    · simp [collapseWsRuns, collapseWsAux]
  | c1 :: c2 :: t, h =>
    have h1 := h c1 (by simp)
    have h2 := h c2 (by simp)
    have hskip : ∀ l : List Char, (∀ c ∈ l, isPySpace c = true) →
        collapseWsAux true l = [] := by
      intro l
      induction l with
      | nil => intro _; rfl
      | cons d r ih =>
        intro hl
        simp only [collapseWsAux, hl d (List.mem_cons_self d r), if_true]
        exact ih (fun e he => hl e (List.mem_cons_of_mem d he))
    rw [show collapseWsRuns (c1 :: c2 :: t) = ' ' :: collapseWsAux true (c2 :: t) by
      simp [collapseWsRuns, collapseWsAux, h1, h2]]
    rw [hskip (c2 :: t) (fun d hd => h d (List.mem_cons_of_mem c1 hd))]
    exact ⟨by intro d hd; simp only [List.mem_singleton] at hd; rw [hd]; decide, by simp⟩

theorem caseSpaceFix_short {s : List Char} (h : s.length ≤ 1) : caseSpaceFix s = s := by
  match s, h with
  | [], _ => rfl
  | [c], _ => rfl

theorem printableFilter_allws {s : List Char} (h : ∀ c ∈ s, isPySpace c = true) :
    (∀ c ∈ printableFilter s, isPySpace c = true)
    ∧ (printableFilter s).length ≤ s.length := by
  constructor
  · intro c hc
    exact h c (List.mem_of_mem_filter hc)
  · exact List.length_filter_le _ s

theorem spaceTab_short {s : List Char} (hlen : s.length ≤ 1)
    (h : ∀ c ∈ s, isPySpace c = true) :
    (∀ c ∈ spaceTabCollapse s, isPySpace c = true) ∧ (spaceTabCollapse s).length ≤ 1 := by
  match s, hlen, h with
  | [], _, _ =>
    exact ⟨fun c hc => absurd hc (List.not_mem_nil c), by simp [spaceTabCollapse, spaceTabAux]⟩
  | [c], _, h =>
    by_cases hst : (c == ' ' || c == '\t') = true
    · rw [show spaceTabCollapse [c] = [' '] by simp [spaceTabCollapse, spaceTabAux, hst]]
      exact ⟨by intro d hd; simp only [List.mem_singleton] at hd; rw [hd]; decide, by simp⟩
    · rw [show spaceTabCollapse [c] = [c] by simp [spaceTabCollapse, spaceTabAux, hst]]
      exact ⟨h, by simp⟩

theorem paraBreak_short {s : List Char} (hlen : s.length ≤ 1) : paraBreakClean s = s := by
  match s, hlen with
  | [], _ => rfl
  | [c], _ =>
    by_cases hc : (c == '\n') = true
    · rw [show c = '\n' from by simpa using hc]
      rfl
    · simp [paraBreakClean, paraBreakF, hc]

theorem capNl_short {s : List Char} (hlen : s.length ≤ 1) : capNewlines s = s := by
  match s, hlen with
  | [], _ => rfl
  | [c], _ =>
    by_cases hc : (c == '\n') = true
    · rw [show c = '\n' from by simpa using hc]
      rfl
    · simp [capNewlines, capNlAux, hc]

/-- Whitespace-only input preprocesses to the empty string: the word-level OCR
fixes cannot match, `\s{2,}` collapses everything to at most one whitespace
character, the remaining passes keep it short, and the final `strip` removes
it. -/
theorem preprocessText_allws {t : Text} (h : ∀ c ∈ t, isPySpace c = true) :
    preprocessText t = [] := by
  unfold preprocessText
  unfold subWB
  rw [subWBF_allws (by decide) _ _ _ _ _ h,
    subWBF_allws (by decide) _ _ _ _ _ h,
    subWBF_allws (by decide) _ _ _ _ _ h,
    subWBF_allws (by decide) _ _ _ _ _ h]
  obtain ⟨hw1, hl1⟩ := collapseWs_allws h
  rw [caseSpaceFix_short hl1]
  obtain ⟨hw2, hl2⟩ := printableFilter_allws hw1
  obtain ⟨hw3, hl3⟩ := spaceTab_short (Nat.le_trans hl2 hl1) hw2
  rw [paraBreak_short hl3, capNl_short hl3]
  exact pystrip_allws hw3

/-- Claim C10: for every whitespace-only input (empty string included) and
every configuration, `chunk_document` returns the empty list and raises
nothing: preprocessing yields the empty string, the paragraph segmenter yields
no paragraphs, and the assembler and finalizer pass the empty sequence
through. -/
theorem c10_whitespace_only (cfg : ChunkConfig) (t name : Text)
    (h : ∀ c ∈ t, isPySpace c = true) :
    preprocessText t = []
    ∧ splitParagraphs (preprocessText t) = []
    ∧ chunkDocument cfg t name = some [] := by
  have hp := preprocessText_allws h
  refine ⟨hp, ?_, ?_⟩
  · rw [hp]
    decide
  · unfold chunkDocument
    rw [hp]
    show (cscGo cfg (splitParagraphs []) [] [] 0).map (fun cs => finalizeChunks cs name)
      = some []
    rw [show splitParagraphs ([] : Text) = [] by decide]
    simp only [cscGo, List.isEmpty_nil, Bool.not_true, Bool.false_and, Bool.false_eq_true,
      if_false, Option.map_some]
    rfl

/-- Witness for C10 at a concrete input: spaces, tabs and blank lines only. -/
theorem c10_witness :
    chunkDocument defaultChunkConfig "  \n\n \t ".toList "doc".toList = some [] :=
  (c10_whitespace_only defaultChunkConfig "  \n\n \t ".toList "doc".toList (by decide)).2.2
